import Mathlib

/-!
Shallow embedding of the dekejikatu Discord automation scripts.

The two core pieces of logic, per the repository:
- the bounded, cursor-paginated time-window message fetch
  (fetchSince in scripts/discord-achievements.js and
  fetchMessagesSince in scripts/discord-selfintro.js, identical logic);
- the seen-URL ledger (loadSentUrls / saveSentUrls in
  scripts/discord-ai-news.js);
- the digest formatter (formatSummary / getRotatingMessage in
  scripts/discord-achievements.js) and the ai-news main pipeline.

Network responses are modelled as explicit inputs: the successive page
responses of the message-list API form a list, each entry either an HTTP
error status or a page of messages (newest-first, as the API returns
them).  Calendar/locale-derived values (rendered dates, the epoch
milliseconds of now and of Jan 1 of the current year) are parameters,
since they depend on the ambient clock and timezone.  A JavaScript Set
is modelled as its insertion-ordered, duplicate-free list of elements.
-/

/-- A Discord message as consumed by the scripts: id (snowflake string),
creation time in epoch milliseconds (the value of new Date(m.timestamp).getTime()),
body text, author id and author bot-flag. -/
structure Msg where
  id : String
  timestamp : Int
  content : String
  authorId : String
  authorBot : Bool
deriving DecidableEq, Repr

/-- The inner for-loop of fetchSince over one page: walk the page in its
newest-first order, pushing each message until one with timestamp older
than sinceTs is met; the Bool records whether that early return fired
(in the source, `if(ts < sinceTs) return out;` inside `for(const m of batch)`). -/
def takePage (sinceTs : Int) : List Msg → List Msg × Bool
  | [] => ([], false)
  | m :: rest =>
    if m.timestamp < sinceTs then ([], true)
    else
      let tp := takePage sinceTs rest
      (m :: tp.1, tp.2)

/-- The while-loop of fetchSince (discord-achievements.js lines 23-37,
discord-selfintro.js lines 38-56).  `pages` is the sequence of responses
the message-list API gives to the successive cursor requests: an error
status aborts with that status; an empty page breaks; otherwise the page
is folded in by takePage, returning at the first out-of-window message,
and the loop continues while the accumulated list is shorter than
limitMax. -/
def fetchSinceGo (sinceTs : Int) (limitMax : Nat)
    (pages : List (Except Nat (List Msg))) (out : List Msg) :
    Except Nat (List Msg) :=
  if limitMax ≤ out.length then .ok out
  else
    match pages with
    | [] => .ok out
    | .error s :: _ => .error s
    | .ok batch :: rest =>
      if batch.isEmpty then .ok out
      else
        let tp := takePage sinceTs batch
        if tp.2 then .ok (out ++ tp.1)
        else fetchSinceGo sinceTs limitMax rest (out ++ tp.1)

/-- fetchSince(channelId, sinceIso, limitMax): the channel and the
bearer credential only route the request, so the model takes the page
responses directly. -/
def fetchSince (sinceTs : Int) (limitMax : Nat)
    (pages : List (Except Nat (List Msg))) : Except Nat (List Msg) :=
  fetchSinceGo sinceTs limitMax pages []

theorem takePage_eq (sinceTs : Int) (l : List Msg) :
    takePage sinceTs l =
      (l.takeWhile (fun m => decide (sinceTs ≤ m.timestamp)),
       l.any (fun m => decide (m.timestamp < sinceTs))) := by
  induction l with
  | nil => rfl
  | cons m rest ih =>
    by_cases h : m.timestamp < sinceTs
    · simp [takePage, h, List.takeWhile_cons, not_le.mpr h]
    · simp [takePage, h, ih, List.takeWhile_cons, not_lt.mp h]

theorem takePage_length_le (sinceTs : Int) (l : List Msg) :
    (takePage sinceTs l).1.length ≤ l.length := by
  induction l with
  | nil => simp [takePage]
  | cons m rest ih =>
    by_cases h : m.timestamp < sinceTs
    · simp [takePage, h]
    · simp only [takePage, if_neg h, List.length_cons]
      omega

theorem takePage_mem (sinceTs : Int) (l : List Msg) (m : Msg)
    (hm : m ∈ (takePage sinceTs l).1) : sinceTs ≤ m.timestamp := by
  rw [takePage_eq] at hm
  simpa using List.mem_takeWhile_imp hm

theorem fetchSinceGo_mem (sinceTs : Int) (limitMax : Nat)
    (pages : List (Except Nat (List Msg))) (out msgs : List Msg)
    (hout : ∀ m ∈ out, sinceTs ≤ m.timestamp)
    (h : fetchSinceGo sinceTs limitMax pages out = .ok msgs) :
    ∀ m ∈ msgs, sinceTs ≤ m.timestamp := by
  induction pages generalizing out with
  | nil =>
    unfold fetchSinceGo at h
    split at h <;> simp_all
  | cons pg rest ih =>
    unfold fetchSinceGo at h
    split at h
    · cases h; exact hout
    · match pg, h with
      | .error s, h => cases h
      | .ok batch, h =>
        simp only at h
        split at h
        · cases h; exact hout
        · have hmem : ∀ m ∈ out ++ (takePage sinceTs batch).1,
              sinceTs ≤ m.timestamp := by
            intro m hm
            rcases List.mem_append.mp hm with hm | hm
            · exact hout m hm
            · exact takePage_mem sinceTs batch m hm
          split at h
          · cases h; exact hmem
          · exact ih _ hmem h

theorem fetchSinceGo_length (sinceTs : Int) (limitMax : Nat)
    (pages : List (Except Nat (List Msg))) (out msgs : List Msg)
    (hpages : ∀ batch, Except.ok batch ∈ pages → batch.length ≤ 100)
    (h : fetchSinceGo sinceTs limitMax pages out = .ok msgs) :
    msgs.length ≤ max out.length (limitMax + 99) := by
  induction pages generalizing out with
  | nil =>
    unfold fetchSinceGo at h
    split at h <;> · cases h; exact le_max_left _ _
  | cons pg rest ih =>
    unfold fetchSinceGo at h
    split at h
    · cases h; exact le_max_left _ _
    · match pg, h with
      | .error s, h => cases h
      | .ok batch, h =>
        simp only at h
        have hbatch : batch.length ≤ 100 :=
          hpages batch (List.mem_cons_self _ _)
        have hrest : ∀ b, Except.ok b ∈ rest → b.length ≤ 100 := by
          intro b hb
          exact hpages b (List.mem_cons_of_mem _ hb)
        have hlen : (out ++ (takePage sinceTs batch).1).length ≤
            limitMax + 99 := by
          have := takePage_length_le sinceTs batch
          simp only [List.length_append]
          rename_i hlt _
          omega
        split at h
        · cases h; exact le_max_left _ _
        · split at h
          · cases h; exact le_trans hlen (le_max_right _ _)
          · have := ih (out ++ (takePage sinceTs batch).1) hrest h
            omega

/-- Concrete messages used to instantiate the fetcher theorems:
two in-window messages (timestamps 5 and 3) and one out-of-window
message (timestamp -5), relative to a window starting at 0. -/
def mNew : Msg := ⟨"3", 5, "hello", "a1", false⟩

def mNew2 : Msg := ⟨"2", 3, "hi", "a2", false⟩

def mOld : Msg := ⟨"1", -5, "old", "a3", false⟩

/-- Claim C1: fetchSince returns only messages with timestamp at least
sinceTs; moreover at any reachable loop state (accumulator out still
under the cap, so the next page is actually requested), if the arriving
page holds a message older than sinceTs, the fetch stops and returns at
once: the result is the accumulator plus the in-window prefix of that
page (its takeWhile), emitting neither the boundary message nor any
later one of the page nor anything from any subsequent page (rest is
arbitrary and absent from the result); in particular this holds when
the boundary page is the first response. -/
theorem fetchSince_window (sinceTs : Int) (limitMax : Nat)
    (pages : List (Except Nat (List Msg))) :
    (∀ msgs, fetchSince sinceTs limitMax pages = .ok msgs →
      ∀ m ∈ msgs, sinceTs ≤ m.timestamp) ∧
    (∀ batch rest (out : List Msg), out.length < limitMax →
      batch.any (fun m => decide (m.timestamp < sinceTs)) = true →
      fetchSinceGo sinceTs limitMax (Except.ok batch :: rest) out =
        Except.ok
          (out ++ batch.takeWhile (fun m => decide (sinceTs ≤ m.timestamp)))) ∧
    (∀ batch rest, 0 < limitMax →
      batch.any (fun m => decide (m.timestamp < sinceTs)) = true →
      fetchSince sinceTs limitMax (Except.ok batch :: rest) =
        Except.ok (batch.takeWhile (fun m => decide (sinceTs ≤ m.timestamp)))) := by
  have hgen : ∀ batch rest (out : List Msg), out.length < limitMax →
      batch.any (fun m => decide (m.timestamp < sinceTs)) = true →
      fetchSinceGo sinceTs limitMax (Except.ok batch :: rest) out =
        Except.ok
          (out ++ batch.takeWhile (fun m => decide (sinceTs ≤ m.timestamp))) := by
    intro batch rest out hout hany
    have hne : batch.isEmpty = false := by
      cases batch
      · simp at hany
      · rfl
    unfold fetchSinceGo
    rw [if_neg (by omega)]
    simp [hne, takePage_eq, hany]
  refine ⟨?_, hgen, ?_⟩
  · intro msgs h m hm
    exact fetchSinceGo_mem sinceTs limitMax pages [] msgs (by simp) h m hm
  · intro batch rest hpos hany
    have h0 := hgen batch rest [] (by simpa using hpos) hany
    simpa [fetchSince] using h0

/-- Witness for C1 at concrete inputs: window start 0, cap 5.  On the
first-page boundary input [mNew, mOld] the fetch returns exactly
[mNew], in-window.  At the mid-loop state where [mNew] was already
collected from an earlier page, the boundary page [mNew2, mOld] makes
the loop return [mNew, mNew2] at once, untouched by the further page. -/
theorem fetchSince_window_witness :
    (∀ m ∈ [mNew], (0 : Int) ≤ m.timestamp) ∧
    fetchSinceGo 0 5 [Except.ok [mNew2, mOld], Except.ok [mNew2]] [mNew] =
      Except.ok [mNew, mNew2] ∧
    fetchSince 0 5 [Except.ok [mNew, mOld], Except.ok [mNew2]] =
      Except.ok [mNew] := by
  have h := fetchSince_window 0 5 [Except.ok [mNew, mOld], Except.ok [mNew2]]
  refine ⟨?_, ?_, ?_⟩
  · intro m hm
    exact h.1 [mNew] (by rfl) m hm
  · have h2 := h.2.1 [mNew2, mOld] [Except.ok [mNew2]] [mNew]
      (by decide) (by decide)
    rw [h2]
    rfl
  · have h3 := h.2.2 [mNew, mOld] [Except.ok [mNew2]] (by decide) (by decide)
    rw [h3]
    rfl

/-- Counterexample to claim C2: with maxItems = 1 and a single page of
two in-window messages, fetchSince returns 2 entries, more than
maxItems.  The cap in the source is only the while-loop guard
out.length < limitMax, and a whole page is pushed between checks. -/
theorem fetchSince_cap_counterexample :
    fetchSince 0 1 [Except.ok [mNew, mNew2]] = Except.ok [mNew, mNew2] ∧
    ¬ ([mNew, mNew2].length ≤ 1) := by
  exact ⟨rfl, by decide⟩

/-- Claim C2 (amended): the result of fetchSince has at most
maxItems + 99 entries, provided every page the API returns holds at
most 100 messages (the source always requests pages of size 100);
the cap is checked only between pages, so a run can overshoot by at
most one page minus one. -/
theorem fetchSince_length_le (sinceTs : Int) (limitMax : Nat)
    (pages : List (Except Nat (List Msg))) (msgs : List Msg)
    (hpages : ∀ batch, Except.ok batch ∈ pages → batch.length ≤ 100)
    (h : fetchSince sinceTs limitMax pages = .ok msgs) :
    msgs.length ≤ limitMax + 99 := by
  have := fetchSinceGo_length sinceTs limitMax pages [] msgs hpages h
  simpa using this

/-- Witness for the amended C2 at a concrete input. -/
theorem fetchSince_length_le_witness :
    [mNew, mNew2].length ≤ 1 + 99 := by
  refine fetchSince_length_le 0 1 [Except.ok [mNew, mNew2]] [mNew, mNew2]
    ?_ (by rfl)
  intro b hb
  have hb2 : (Except.ok b : Except Nat (List Msg)) =
      Except.ok [mNew, mNew2] := by simpa using hb
  cases hb2
  decide

/-- Claim C9: for positive limitMax, and pages of at most 100 messages
each as the source always requests, the result of fetchSince has
strictly fewer than limitMax + 100 entries. -/
theorem fetchSince_overshoot_lt (sinceTs : Int) (limitMax : Nat)
    (pages : List (Except Nat (List Msg))) (msgs : List Msg)
    (hpos : 0 < limitMax)
    (hpages : ∀ batch, Except.ok batch ∈ pages → batch.length ≤ 100)
    (h : fetchSince sinceTs limitMax pages = .ok msgs) :
    msgs.length < limitMax + 100 := by
  have := fetchSinceGo_length sinceTs limitMax pages [] msgs hpages h
  simp only [List.length_nil] at this
  omega

/-- Witness for C9 at a concrete input. -/
theorem fetchSince_overshoot_lt_witness :
    [mNew, mNew2].length < 1 + 100 := by
  refine fetchSince_overshoot_lt 0 1 [Except.ok [mNew, mNew2]] [mNew, mNew2]
    (by decide) ?_ (by rfl)
  intro b hb
  have hb2 : (Except.ok b : Except Nat (List Msg)) =
      Except.ok [mNew, mNew2] := by simpa using hb
  cases hb2
  decide

/-- Claim C8: whenever the fetch loop makes a page request that fails
with HTTP status s (modelled as the next response being an error), the
whole fetch aborts with that status: whatever was already accumulated
(out) is discarded, so the caller never receives a partial,
truncated-by-failure sequence; in particular this holds for the first
request of fetchSince. -/
theorem fetchSince_upstream_error (sinceTs : Int) (limitMax : Nat) (s : Nat)
    (rest : List (Except Nat (List Msg))) :
    (∀ out : List Msg, out.length < limitMax →
      fetchSinceGo sinceTs limitMax (Except.error s :: rest) out =
        Except.error s) ∧
    (0 < limitMax →
      fetchSince sinceTs limitMax (Except.error s :: rest) =
        Except.error s) := by
  constructor
  · intro out hout
    unfold fetchSinceGo
    rw [if_neg (by omega)]
  · intro hpos
    unfold fetchSince fetchSinceGo
    rw [if_neg (by simp only [List.length_nil]; omega)]

/-- Witness for C8 at a concrete input: a 403 on the second request
(after [mNew] was already collected) and a 500 on the first request
both abort with that status. -/
theorem fetchSince_upstream_error_witness :
    fetchSinceGo 0 5 [Except.error 403] [mNew] = Except.error 403 ∧
    fetchSince 0 5 [Except.error 500] = Except.error 500 := by
  constructor
  · exact (fetchSince_upstream_error 0 5 403 []).1 [mNew] (by decide)
  · exact (fetchSince_upstream_error 0 5 500 []).2 (by decide)

/-- Insertion into a JavaScript Set (Set.prototype.add): insertion
order is kept, and an element already present is not moved. -/
def jsSetInsert (s : List String) (x : String) : List String :=
  if x ∈ s then s else s ++ [x]

/-- new Set(arr) for an array of strings: insert the elements in
order; the result is the insertion-ordered duplicate-free list the
Set iterates in. -/
def jsSetOfList (l : List String) : List String :=
  l.foldl jsSetInsert []

/-- The possible states of the ledger file ai-news-sent.json as seen by
loadSentUrls: missing (existsSync is false), unreadable (readFileSync
throws), malformed (JSON.parse throws), or a parsed JSON document whose
urls field is either absent/falsy or an array of strings. -/
inductive FileState where
  | absent : FileState
  | unreadable : FileState
  | malformed : FileState
  | json : Option (List String) → FileState
deriving DecidableEq, Repr

/-- loadSentUrls (discord-ai-news.js lines 62-73): the whole body is in
a try/catch whose catch falls through to return new Set(), so the
function is total — every failure path (absent, unreadable, malformed)
yields the empty set, and a parsed document yields new Set(data.urls || []). -/
def loadSentUrls : FileState → List String
  | .absent => []
  | .unreadable => []
  | .malformed => []
  | .json none => jsSetOfList []
  | .json (some urls) => jsSetOfList urls

/-- saveSentUrls (discord-ai-news.js lines 76-87): the persisted array
is Array.from(urls).slice(-100), i.e. the input set's insertion-order
list with all but the last 100 entries dropped. -/
def saveSentUrls (urls : List String) : List String :=
  urls.drop (urls.length - 100)

/-- The ledger file state left behind by a successful saveSentUrls:
a JSON document whose urls field holds the truncated array. -/
def fileAfterSave (urls : List String) : FileState :=
  FileState.json (some (saveSentUrls urls))

/-- Claim C3: for every insertion-ordered url set, save persists at
most 100 entries — exactly min 100 (number of urls) of them — and what
it persists is a suffix of the insertion order: the dropped entries are
exactly the oldest ones (the prefix), so eviction is FIFO and the
most-recently-added 100 are kept. -/
theorem saveSentUrls_spec (urls : List String) :
    (saveSentUrls urls).length ≤ 100 ∧
    (saveSentUrls urls).length = min 100 urls.length ∧
    urls = urls.take (urls.length - 100) ++ saveSentUrls urls := by
  refine ⟨?_, ?_, ?_⟩
  · simp only [saveSentUrls, List.length_drop]
    omega
  · simp only [saveSentUrls, List.length_drop]
    omega
  · simp [saveSentUrls]

/-- Claim C6: loadSentUrls returns the empty set and does not raise
(it is a total function whose failure branches all return) when the
backing file is absent, unreadable, or fails to parse as JSON. -/
theorem loadSentUrls_failure_empty :
    loadSentUrls FileState.absent = [] ∧
    loadSentUrls FileState.unreadable = [] ∧
    loadSentUrls FileState.malformed = [] :=
  ⟨rfl, rfl, rfl⟩

theorem jsSetOfList_append_nodup (l : List String) :
    ∀ acc : List String, (acc ++ l).Nodup →
      l.foldl jsSetInsert acc = acc ++ l := by
  induction l with
  | nil => intro acc _; simp
  | cons x xs ih =>
    intro acc hnd
    have hx : x ∉ acc := by
      intro hmem
      exact (List.disjoint_of_nodup_append hnd) hmem (List.mem_cons_self x xs)
    have step : jsSetInsert acc x = acc ++ [x] := by
      simp [jsSetInsert, hx]
    have hnd2 : ((acc ++ [x]) ++ xs).Nodup := by
      simpa [List.append_assoc] using hnd
    calc (x :: xs).foldl jsSetInsert acc
        = xs.foldl jsSetInsert (jsSetInsert acc x) := rfl
      _ = xs.foldl jsSetInsert (acc ++ [x]) := by rw [step]
      _ = (acc ++ [x]) ++ xs := ih (acc ++ [x]) hnd2
      _ = acc ++ x :: xs := by simp

theorem jsSetOfList_nodup (l : List String) (h : l.Nodup) :
    jsSetOfList l = l := by
  have := jsSetOfList_append_nodup l [] (by simpa using h)
  simpa [jsSetOfList] using this

/-- Claim C10: for every duplicate-free url set of at most 100 entries,
saving it and then loading the written file returns the original set
(the model assumes the write and read themselves succeed, i.e. the
loaded file is exactly the one save produced). -/
theorem save_load_roundtrip (urls : List String)
    (hlen : urls.length ≤ 100) (hnd : urls.Nodup) :
    loadSentUrls (fileAfterSave urls) = urls := by
  have hsave : saveSentUrls urls = urls := by
    simp only [saveSentUrls]
    rw [Nat.sub_eq_zero_of_le hlen]
    exact List.drop_zero urls
  simp only [fileAfterSave, hsave, loadSentUrls]
  exact jsSetOfList_nodup urls hnd

/-- Witness for C10 at a concrete input. -/
theorem save_load_roundtrip_witness :
    loadSentUrls (fileAfterSave ["u1", "u2", "u3"]) = ["u1", "u2", "u3"] :=
  save_load_roundtrip ["u1", "u2", "u3"] (by decide) (by decide)

/-- The four filler patterns of getRotatingMessage
(discord-achievements.js lines 41-52). -/
def rotatingPatterns : List String :=
  ["やっほー、デジリューだよ。今週は「できた！」報告がまだないみたい。ちょっと寂しいな…😢\n\nでも大丈夫！小さな「できた」でも全然OKだよ。新しいコードが動いた、ちょっと調子がいい日があった、なんでもいいからシェアしてくれると嬉しいな。みんなの成長、一緒に喜びたいから！✨",
   "おはよう、デジリューだよ。今週の「できた！」報告、まだ見当たらないな。\n\n実は「できた」って、大きくなくても全然いいんだ。例えば「エラー直した」「新しいツール試した」「本1ページ読んだ」とか。どんな小さなことでも、積み重ねが大事だからね。気軽に投稿してみてほしいな 😊",
   "やっほー、デジリューだよ。今週の「できた！」報告、待ってるんだけど見当たらないな。\n\n「できた」は恥ずかしがらなくていいよ。誰かと比べる必要もない。自分なりのペースで、自分なりの「できた」を報告してくれるだけでいいんだ。みんな応援してるから、気軽にシェアしてみて！💪",
   "おはよう、デジリューだよ。今週は「できた！」報告が見当たらなくて、ちょっとさみしいな。\n\nでもね、「できた」って思える瞬間って、実は毎日あるかもしれない。朝起きれた、ご飯食べた、それも「できた」の一つかもしれない。技術的なことでも、日常のことでも、なんでもいいから「できた」と思えたことをシェアしてみてほしいな。きっと誰かが「いいね！」って言ってくれるよ 🌟"]

/-- getRotatingMessage: patterns[patternIndex % patterns.length]; the
JavaScript index is always in bounds after the modulo, so the default
value is never used. -/
def getRotatingMessage (patternIndex : Nat) : String :=
  rotatingPatterns.getD (patternIndex % rotatingPatterns.length) ""

/-- Milliseconds of one week, 7 * 24 * 3600 * 1000. -/
def msPerWeek : Nat := 7 * 24 * 3600 * 1000

/-- The JavaScript replace(/\n/g, ' '): every newline character becomes
a space; since the pattern is one character, this is a character map. -/
def flattenNewlines (s : String) : String :=
  String.mk (s.data.map (fun c => if c = '\n' then ' ' else c))

/-- One bullet line of the achievements digest:
"- <@author>：excerpt" where excerpt is the message body with newlines
flattened, cut to 120 characters, with a trailing ellipsis when the cut
reached the limit. -/
def bulletLine (m : Msg) : String :=
  let excerpt := (flattenNewlines m.content).take 120
  "- <@" ++ m.authorId ++ ">：" ++ excerpt ++
    (if excerpt.length = 120 then "…" else "")

/-- The lines array built by formatSummary on non-empty input
(discord-achievements.js lines 64-73): two header lines, one bullet per
message of nonBot.slice(0, 40), and a closing line.  The first header's
rendered date range (start/now month and day) is a parameter, since it
comes from locale/timezone-dependent Date methods. -/
def summaryLines (dateRange : String) (nonBot : List Msg) : List String :=
  ([dateRange ++ "の「できた！」報告まとめだぞ💪",
    "みんなの成長、デジリューがしっかり見届けた！"]
    ++ (nonBot.take 40).map bulletLine)
    ++ ["次もド派手な「できた！」を待ってるぞ🔥"]

/-- formatSummary (discord-achievements.js lines 54-74).  nowMs and
jan1Ms are now.getTime() and new Date(now.getFullYear(), 0, 1).getTime()
in epoch milliseconds (Jan 1 never after now, so Math.floor of the
quotient is Nat division); the log call in the empty branch only writes
a log line and does not affect the returned string. -/
def formatSummary (nowMs jan1Ms : Nat) (dateRange : String)
    (nonBot : List Msg) : String :=
  if nonBot.length = 0 then
    let weekOfYear := (nowMs - jan1Ms) / msPerWeek
    let patternIndex := weekOfYear % 4
    getRotatingMessage patternIndex
  else
    String.intercalate "\n" (summaryLines dateRange nonBot)

/-- Claim C7: on empty input the filler is chosen deterministically as
pattern index weekOfYear mod patternCount, where
weekOfYear = (nowMs - jan1Ms) / msPerWeek, and two calls whose times
fall in the same week number yield the identical filler text. -/
theorem formatSummary_empty_rotation (nowMs jan1Ms nowMs2 jan1Ms2 : Nat)
    (dr dr2 : String)
    (hweek : (nowMs - jan1Ms) / msPerWeek = (nowMs2 - jan1Ms2) / msPerWeek) :
    formatSummary nowMs jan1Ms dr [] =
      rotatingPatterns.getD
        (((nowMs - jan1Ms) / msPerWeek) % rotatingPatterns.length) "" ∧
    formatSummary nowMs jan1Ms dr [] = formatSummary nowMs2 jan1Ms2 dr2 [] := by
  have h4 : rotatingPatterns.length = 4 := rfl
  constructor
  · simp only [formatSummary, List.length_nil, if_pos, getRotatingMessage, h4]
    congr 1
    omega
  · simp only [formatSummary, List.length_nil, if_pos]
    rw [hweek]

/-- Witness for C7 at concrete times: two instants in week 8 of the
year select the same pattern, number 8 mod 4 = 0. -/
theorem formatSummary_empty_rotation_witness :
    formatSummary (8 * msPerWeek + 5) 0 "8/1〜8/8" [] =
      rotatingPatterns.getD 0 "" ∧
    formatSummary (8 * msPerWeek + 5) 0 "8/1〜8/8" [] =
      formatSummary (8 * msPerWeek + 100) 0 "other" [] := by
  have h := formatSummary_empty_rotation (8 * msPerWeek + 5) 0
    (8 * msPerWeek + 100) 0 "8/1〜8/8" "other" (by decide)
  refine ⟨?_, h.2⟩
  rw [h.1]
  congr 1

/-- Forty-one distinct non-bot messages, m0 .. m40: one more than the
40 the summary keeps. -/
def manyMsgs : List Msg :=
  (List.range 41).map (fun k =>
    ⟨toString k, 10, "m" ++ toString k, "a" ++ toString k, false⟩)

set_option maxRecDepth 10000 in
/-- Counterexample to claim C5: with 41 input messages the digest drops
the 41st (the source formats nonBot.slice(0, 40) only), so the bullet
lines of the whole input do not embed in the output lines in order: the
bullet of message m40 appears nowhere in the output. -/
theorem summaryLines_order_counterexample :
    ¬ List.Sublist (manyMsgs.map bulletLine) (summaryLines "8/1〜8/8" manyMsgs) := by
  intro h
  have hmem : bulletLine ⟨"40", 10, "m40", "a40", false⟩ ∈
      summaryLines "8/1〜8/8" manyMsgs :=
    h.subset (by decide)
  exact absurd hmem (by decide)

/-- Claim C5 (amended): on non-empty input the digest is exactly the
summary lines joined by newlines, the bullet lines of the first 40
input messages form an order-preserving sublist of those lines, and
when the input has at most 40 messages every input message's bullet
does. -/
theorem summaryLines_order (nowMs jan1Ms : Nat) (dateRange : String)
    (nonBot : List Msg) (h : nonBot ≠ []) :
    formatSummary nowMs jan1Ms dateRange nonBot =
      String.intercalate "\n" (summaryLines dateRange nonBot) ∧
    List.Sublist ((nonBot.take 40).map bulletLine)
      (summaryLines dateRange nonBot) ∧
    (nonBot.length ≤ 40 →
      List.Sublist (nonBot.map bulletLine) (summaryLines dateRange nonBot)) := by
  have hsub : List.Sublist ((nonBot.take 40).map bulletLine)
      (summaryLines dateRange nonBot) := by
    unfold summaryLines
    exact (List.sublist_append_right _ _).trans (List.sublist_append_left _ _)
  refine ⟨?_, hsub, ?_⟩
  · have hlen : ¬ nonBot.length = 0 := by
      simpa [List.length_eq_zero] using h
    simp [formatSummary, hlen]
  · intro hle
    have heq : nonBot.take 40 = nonBot := List.take_of_length_le hle
    rw [heq] at hsub
    exact hsub

/-- Witness for the amended C5 at a concrete one-message input. -/
theorem summaryLines_order_witness :
    List.Sublist ([mNew].map bulletLine) (summaryLines "8/1〜8/8" [mNew]) := by
  have h := summaryLines_order 0 0 "8/1〜8/8" [mNew] (by simp)
  exact h.2.2 (by decide)

/-- A news item as selected by fetchNewsFromNewsAPI: title, canonical
url (the de-duplication key), summary/description and published time. -/
structure NewsItem where
  title : String
  url : String
  summary : String
  publishedAt : String
deriving DecidableEq, Repr

/-- fallbackFormat (discord-ai-news.js lines 168-178), the template
digest used when the OpenAI call is skipped or fails.  jstDate is the
locale-rendered date string toLocaleDateString produces. -/
def fallbackFormat (jstDate : String) (items : List NewsItem) : String :=
  let headLine := "おはよう、デジリューだよ。" ++ jstDate ++
    "はAIの動きが気になる朝。さくっと行こっか。"
  if items.length = 0 then
    headLine ++ "\n\n速報的に概要のみ：" ++ jstDate ++
      "は目立ったニュースが拾えなかったぞ。別ソースも当たってみるね（Impact: 低）"
  else
    let bullets := String.intercalate "\n" ((items.take 3).map (fun i =>
      "- " ++ i.title ++ "：" ++
        flattenNewlines
          (if i.summary = "" then "詳細は本文で確認してね" else i.summary) ++
        "  \n  " ++ i.url))
    let tailLine := "時間がない人は、最初の1本だけでもOK。今日もいい一歩にしようね ☕"
    headLine ++ "\n\n" ++ bullets ++ "\n\n" ++ tailLine

/-- The externally visible effects of one ai-news run, in order:
a write of the ledger file (with the persisted url array) or a POST of
a message to the destination channel. -/
inductive Ev where
  | save : List String → Ev
  | post : String → Ev
deriving DecidableEq, Repr

def Ev.isSave : Ev → Bool
  | .save _ => true
  | .post _ => false

def Ev.isPost : Ev → Bool
  | .save _ => false
  | .post _ => true

/-- The main pipeline of discord-ai-news.js (lines 240-265) from the
point the news fetch has returned: raw is the fetched item list, ledger
the ledger file's state, ai the outcome of the optional OpenAI
summarization (none when the key is missing or the call failed).  The
result is the run's ordered trace of ledger-save and channel-post
effects: on empty raw only the fallback post happens; otherwise the
loaded ledger is extended with each item's url (skipping falsy, i.e.
empty, urls), saved, and only then is the digest posted. -/
def aiNewsMain (jstDate : String) (ledger : FileState)
    (raw : List NewsItem) (ai : Option String) : List Ev :=
  if raw.length = 0 then
    [Ev.post (fallbackFormat jstDate [])]
  else
    let sentUrls := raw.foldl
      (fun s item => if item.url = "" then s else jsSetInsert s item.url)
      (loadSentUrls ledger)
    let msg := match ai with
      | some t => t
      | none => fallbackFormat jstDate raw
    [Ev.save (saveSentUrls sentUrls), Ev.post msg]

def newsA : NewsItem :=
  ⟨"Title A", "http://a.example", "Summary A", "2026-01-01T00:00:00Z"⟩

/-- Counterexample to claim C4: in a run that publishes a digest built
from one fetched item, the ledger save is the first effect and the POST
the second, so the save does not happen after the POST. -/
theorem aiNews_order_counterexample :
    (aiNewsMain "1/1" FileState.absent [newsA] none).findIdx? Ev.isSave =
      some 0 ∧
    (aiNewsMain "1/1" FileState.absent [newsA] none).findIdx? Ev.isPost =
      some 1 ∧
    ¬ (1 < 0) := by
  refine ⟨rfl, rfl, by decide⟩

/-- Claim C4 (amended): in every run that publishes a digest built from
fetched news items (raw non-empty), the trace is exactly a ledger save
followed by the digest POST: the ledger update happens before the
POST, never after it. -/
theorem aiNews_save_then_post (jstDate : String) (ledger : FileState)
    (raw : List NewsItem) (ai : Option String) (h : raw ≠ []) :
    (∃ p m, aiNewsMain jstDate ledger raw ai = [Ev.save p, Ev.post m]) ∧
    (aiNewsMain jstDate ledger raw ai).findIdx? Ev.isSave = some 0 ∧
    (aiNewsMain jstDate ledger raw ai).findIdx? Ev.isPost = some 1 := by
  have hlen : ¬ raw.length = 0 := by
    simpa [List.length_eq_zero] using h
  have htr : aiNewsMain jstDate ledger raw ai =
      [Ev.save (saveSentUrls (raw.foldl
        (fun s item => if item.url = "" then s else jsSetInsert s item.url)
        (loadSentUrls ledger))),
       Ev.post (match ai with
        | some t => t
        | none => fallbackFormat jstDate raw)] := by
    simp [aiNewsMain, hlen]
  refine ⟨⟨_, _, htr⟩, ?_, ?_⟩ <;>
    rw [htr] <;> simp [List.findIdx?, Ev.isSave, Ev.isPost]

/-- Witness for the amended C4 at a concrete run. -/
theorem aiNews_save_then_post_witness :
    (aiNewsMain "1/1" FileState.absent [newsA] none).findIdx? Ev.isSave =
      some 0 ∧
    (aiNewsMain "1/1" FileState.absent [newsA] none).findIdx? Ev.isPost =
      some 1 := by
  have h := aiNews_save_then_post "1/1" FileState.absent [newsA] none
    (by simp)
  exact ⟨h.2.1, h.2.2⟩
